import Mathlib

/-!
Verification of the windowed peer-evaluation loop in `src/neurons/val_sim.py`
(`Miner.run` and the module-level helpers).

Shallow embedding conventions:

* A model is its list of named parameters (`self.model.named_parameters()`),
  each parameter abstracted to a single rational coordinate: every operation
  the loop performs (sign, scalar multiply, in-place subtract/add) acts
  elementwise and independently per coordinate, so one coordinate per name
  captures the per-parameter dataflow exactly.  Floats are modelled as `ℚ`.
* A peer's decoded update (`state_dict` after `transformer.decode` /
  `compressor.decompress`, lines 344-361) is an association list from
  parameter name to decoded gradient value; a name absent from the list
  models `state_dict.get(n + 'idxs') is None or state_dict.get(n + 'vals')
  is None`, i.e. "no update for that parameter".  The codec itself is
  external (spec section 1) and is not modelled.
* Python dict indexing `d[k]` on a missing key raises `KeyError`; fallible
  code therefore returns `Option`/`Except`, with `none`/`Except.error`
  for the raised exception.  Python float division by zero raises
  `ZeroDivisionError`; the embedded improvement calculation returns `none`
  in that case.
* Loss values come from an oracle `lossOn : Model → Nat → ℚ` giving the
  loss of a model state on batch index `i` (the forward pass is external,
  spec section 1); `nAvail` is the number of batches the loader yields
  before exhaustion.
-/

/-- Python `dict` lookup semantics over an association list: the most
recently written binding wins (writes are modelled by prepending). -/
def alookup {α β : Type} [DecidableEq α] (k : α) : List (α × β) → Option β
  | [] => none
  | (a, b) :: rest => if k = a then some b else alookup k rest

/-- `torch.Tensor.sign` on a single coordinate: +1, -1 or 0. -/
def signQ (x : ℚ) : ℚ := if 0 < x then 1 else if x < 0 then -1 else 0

/-- `self.model.named_parameters()`: parameter name to current value. -/
abbrev Model := List (String × ℚ)

/-- A peer's decoded gradient per parameter name (lines 344-361); absence of
a name means the update carries no entry for that parameter. -/
abbrev Update := List (String × ℚ)

/-- The `temp_grad` Python dict of decoded trial gradients. -/
abbrev TempGrad := List (String × ℚ)

/-- Lines 341-365 (and identically 443-468): walk `named_parameters`; for
every parameter with both `idxs` and `vals` present, record the decoded
gradient in `temp_grad` and do the in-place trial update
`p.data.sub_(grad.sign(), alpha=step)`.  `tg` is the incoming `temp_grad`
dict: the first evaluation loop passes `[]` (line 340 re-initialises it per
peer); the second loop passes the dict carried over from earlier
evaluations (no re-initialisation before line 465). -/
def trialStep (step : ℚ) (u : Update) (tg : TempGrad) (m : Model) : TempGrad × Model :=
  match m with
  | [] => (tg, [])
  | (n, p) :: rest =>
    match alookup n u with
    | some g =>
      let r := trialStep step u ((n, g) :: tg) rest
      (r.1, (n, p - signQ g * step) :: r.2)
    | none =>
      let r := trialStep step u tg rest
      (r.1, (n, p) :: r.2)

/-- Lines 384-386 (and 487-489): the revert loop
`for n, p in named_parameters(): if temp_grad[n] is not None:
p.data.add_(temp_grad[n].sign(), alpha=step)`.
`temp_grad[n]` on a missing key raises `KeyError` (`none` here); values
stored in `temp_grad` are tensors and never `None`, so a found entry is
always added back. -/
def revertStep (step : ℚ) (tg : TempGrad) (m : Model) : Option Model :=
  match m with
  | [] => some []
  | (n, p) :: rest =>
    match alookup n tg with
    | none => none
    | some g => (revertStep step tg rest).map (fun r => (n, p + signQ g * step) :: r)

/-- The trial application followed by its revert, as executed for one peer
(`tg0` being the `temp_grad` contents on entry). -/
def trialThenRevert (step : ℚ) (u : Update) (tg0 : TempGrad) (m : Model) : Option Model :=
  let t := trialStep step u tg0 m
  revertStep step t.1 t.2

/-- Accumulated loss over batches `0..k-1` (`loss_before += outputs.loss.item()`). -/
def sumLoss (lossOn : Model → Nat → ℚ) (m : Model) (k : Nat) : ℚ :=
  (List.range k).foldl (fun acc i => acc + lossOn m i) 0

/-- `total / n_batches if n_batches > 0 else 0` (lines 337, 388). -/
def perBatch (total : ℚ) (n : Nat) : ℚ := if 0 < n then total / n else 0

/-- Mean loss of the loss loop (lines 324-337): `for i, batch in
enumerate(loader): if i > 3: break` processes `min nAvail 4` batches and
divides guarded by `n_batches > 0`.  Note line 331 runs the forward pass on
the argument model. -/
def meanLoss (lossOn : Model → Nat → ℚ) (m : Model) (nAvail : Nat) : ℚ :=
  perBatch (sumLoss lossOn m (min nAvail 4)) (min nAvail 4)

/-- Line 392: `100*(1.-loss_after_per_batch/loss_before_per_batch)`.
The division is not guarded: `loss_before_per_batch == 0` raises
`ZeroDivisionError`, modelled as `none`. -/
def improvementCalc (lb la : ℚ) : Option ℚ :=
  if lb = 0 then none else some (100 * (1 - la / lb))

/-- The observable values produced by one peer evaluation. -/
structure PeerOutcome where
  lossBeforePerBatch : ℚ
  lossAfterPerBatch : ℚ
  improvement : ℚ
  tempGrad : TempGrad
  finalModel : Model
deriving DecidableEq

/-- One peer evaluation (lines 316-393, and identically 419-496):
1. `loss_before` over at most 4 batches — the forward pass at line 331 uses
   `self.model` (`m`), not the deep copy `model_copy` (`mcopy`), which is
   created at line 260/397, put in train mode and then unused;
2. the trial application building `temp_grad` (entry dict `tg0`);
3. `loss_after` over at most 4 batches on the mutated model;
4. the revert loop (KeyError on a parameter missing from `temp_grad`);
5. per-batch `loss_after` and the unguarded improvement ratio. -/
def evalPeerGo (lossOn : Model → Nat → ℚ) (nb na : Nat) (step : ℚ) (u : Update)
    (tg0 : TempGrad) (mcopy m : Model) : Except String PeerOutcome :=
  let lb := meanLoss lossOn m nb
  let t := trialStep step u tg0 m
  let laSum := sumLoss lossOn t.2 (min na 4)
  match revertStep step t.1 t.2 with
  | none => Except.error "KeyError"
  | some m2 =>
    let la := perBatch laSum (min na 4)
    match improvementCalc lb la with
    | none => Except.error "ZeroDivisionError"
    | some imp => Except.ok ⟨lb, la, imp, t.1, m2⟩

/-- First evaluation loop over the peers (lines 295-393): peers whose fetch
returned `None` are skipped (lines 299-301); each evaluated peer gets a fresh
`temp_grad` (line 340); the model is threaded through the trials in place; an
exception from an evaluation propagates (there is no try/except).  Returns
the `loss_improvement` dict in peer order, the final model, and the
`temp_grad` contents left behind by the last evaluated peer. -/
def evalLoopFresh (lossOn : Nat → Model → Nat → ℚ) (nb na : Nat → Nat) (step : ℚ)
    (fetch : Nat → Option Update) (mcopy : Model) (peers : List Nat) (m : Model)
    (tg : TempGrad) : Except String (List (Nat × ℚ) × Model × TempGrad) :=
  match peers with
  | [] => Except.ok ([], m, tg)
  | uid :: rest =>
    match fetch uid with
    | none => evalLoopFresh lossOn nb na step fetch mcopy rest m tg
    | some u =>
      match evalPeerGo (lossOn uid) (nb uid) (na uid) step u [] mcopy m with
      | Except.error e => Except.error e
      | Except.ok o =>
        match evalLoopFresh lossOn nb na step fetch mcopy rest o.finalModel o.tempGrad with
        | Except.error e => Except.error e
        | Except.ok (res, m2, tg2) => Except.ok ((uid, o.improvement) :: res, m2, tg2)

/-- Second evaluation loop (lines 399-496): identical to the first except
that `temp_grad` is never re-initialised — each evaluation receives the dict
carried over from all earlier evaluations (line 465 only overwrites the
entries present in the current peer's update). -/
def evalLoopCarry (lossOn : Nat → Model → Nat → ℚ) (nb na : Nat → Nat) (step : ℚ)
    (fetch : Nat → Option Update) (mcopy : Model) (peers : List Nat) (m : Model)
    (tg : TempGrad) : Except String (List (Nat × ℚ) × Model × TempGrad) :=
  match peers with
  | [] => Except.ok ([], m, tg)
  | uid :: rest =>
    match fetch uid with
    | none => evalLoopCarry lossOn nb na step fetch mcopy rest m tg
    | some u =>
      match evalPeerGo (lossOn uid) (nb uid) (na uid) step u tg mcopy m with
      | Except.error e => Except.error e
      | Except.ok o =>
        match evalLoopCarry lossOn nb na step fetch mcopy rest o.finalModel o.tempGrad with
        | Except.error e => Except.error e
        | Except.ok (res, m2, tg2) => Except.ok ((uid, o.improvement) :: res, m2, tg2)

/-- Line 515: `binary_value = 1 if loss_improvement_other[uid] <
loss_improvement[uid] else -1`. -/
def binarySignal (own other : ℚ) : ℚ := if other < own then 1 else -1

/-- Line 510: `alpha = 0.05`. -/
def alphaT : ℚ := 0.05

/-- Line 521: `(1 - alpha) * prev_avg + alpha * binary_value`. -/
def trustUpdateFn (prev signal : ℚ) : ℚ := (1 - alphaT) * prev + alphaT * signal

/-- Lines 512-522: for each uid of `loss_improvement` also present in
`loss_improvement_other`, update the moving average, with
`prev_avg = loss_improvement_moving_avg[uid] if uid in
loss_improvement_moving_avg else 0`.  Dict writes are modelled by
prepending (see `alookup`). -/
def trustLoop (own other avg : List (Nat × ℚ)) : List (Nat × ℚ) :=
  match own with
  | [] => avg
  | (uid, a) :: rest =>
    match alookup uid other with
    | none => trustLoop rest other avg
    | some b =>
      trustLoop rest other
        ((uid, trustUpdateFn ((alookup uid avg).getD 0) (binarySignal a b)) :: avg)

/-- Lines 559-589: for each named parameter, if the gathered state has both
`idxs` and `vals` the decoded gradient's sign becomes the applied gradient
(`p.grad.sign_()`); parameters with missing data are skipped.  `gatherSd n`
is the decoded gathered gradient for parameter `n` (`None` when absent). -/
def aggregateUpdate (gatherSd : String → Option ℚ) (m : Model) : List (String × ℚ) :=
  m.filterMap (fun np => (gatherSd np.1).map (fun g => (np.1, signQ g)))

/-- What one iteration of the window body produces. -/
structure WindowResult where
  improvementsOwn : List (Nat × ℚ)
  improvementsOther : List (Nat × ℚ)
  trustAvg : List (Nat × ℚ)
  aggUpdate : List (String × ℚ)
  model : Model
deriving DecidableEq

/-- One window body (lines 258-598 minus logging/optimizer internals):
deep-copy the model (line 260, `mcopy := m`), run the first evaluation loop
on own-seed data, deep-copy again (line 397), run the second loop on
random-seed data with the carried `temp_grad`, update the trust moving
averages, and build the sign aggregate from the gathered state.  Any
uncaught exception from an evaluation aborts the whole window. -/
def runWindow (step : ℚ) (peers : List Nat) (fetch : Nat → Option Update)
    (lossOwn : Nat → Model → Nat → ℚ) (nbOwn naOwn : Nat → Nat)
    (lossOther : Nat → Model → Nat → ℚ) (nbOther naOther : Nat → Nat)
    (gatherSd : String → Option ℚ) (m : Model) (avg : List (Nat × ℚ)) :
    Except String WindowResult :=
  match evalLoopFresh lossOwn nbOwn naOwn step fetch m peers m [] with
  | Except.error e => Except.error e
  | Except.ok (own, m1, tg1) =>
    match evalLoopCarry lossOther nbOther naOther step fetch m1 peers m1 tg1 with
    | Except.error e => Except.error e
    | Except.ok (other, m2, _tg2) =>
      Except.ok ⟨own, other, trustLoop own other avg, aggregateUpdate gatherSd m2, m2⟩

/-- A peer's trust score after a list of binary signals, starting from the
lazy default 0 (line 518). -/
def scoreAfterSignals (sig : List ℚ) : ℚ := sig.foldl trustUpdateFn 0

/-- The score after `n` windows of the constant signal `s`. -/
def scoreN (s : ℚ) (n : Nat) : ℚ := scoreAfterSignals (List.replicate n s)

/-- The coordinator state: the block-listener-driven `self.current_window`,
the coordinator-owned `self.sync_window`, and the trace of windows whose
peer work has been performed. -/
structure CoordState where
  currentWindow : Int
  syncWindow : Int
  workedWindows : List Int
deriving DecidableEq

/-- One iteration of the main `while True` loop (lines 244-598): the peer
work for `sync_window` runs unconditionally — no statement of the body reads
or waits on `current_window` — and line 598 does `self.sync_window += 1`. -/
def mainIter (s : CoordState) : CoordState :=
  ⟨s.currentWindow, s.syncWindow + 1, s.workedWindows ++ [s.syncWindow]⟩

/-- `n` iterations of the main loop. -/
def mainLoop : Nat → CoordState → CoordState
  | 0, s => s
  | Nat.succ k, s => mainLoop k (mainIter s)

/-- Lines 239-242, the loop before the main loop: it breaks out (once, for
the whole run) exactly when `self.current_window != self.sync_window`, and
spins while they are equal. -/
def exhaustedBreak (current sync : Int) : Bool := current != sync

/-! ### Helper lemmas: association-list lookup, trial and revert -/

theorem alookup_isSome_iff {β : Type} (k : String) (l : List (String × β)) :
    (alookup k l).isSome = true ↔ k ∈ l.map Prod.fst := by
  induction l with
  | nil => simp [alookup]
  | cons hd tl ih =>
    obtain ⟨a, b⟩ := hd
    by_cases h : k = a <;> simp [alookup, h, ih]

theorem trialStep_names (step : ℚ) (u : Update) (tg : TempGrad) (m : Model) :
    (trialStep step u tg m).2.map Prod.fst = m.map Prod.fst := by
  induction m generalizing tg with
  | nil => simp [trialStep]
  | cons hd tl ih =>
    obtain ⟨n, p⟩ := hd
    cases h : alookup n u <;> simp [trialStep, h, ih]

theorem trialStep_model_none (step : ℚ) (u : Update) (n : String)
    (hu : alookup n u = none) (tg : TempGrad) (m : Model) :
    alookup n (trialStep step u tg m).2 = alookup n m := by
  induction m generalizing tg with
  | nil => simp [trialStep]
  | cons hd tl ih =>
    obtain ⟨a, p⟩ := hd
    cases h : alookup a u with
    | some g =>
      have hna : n ≠ a := by rintro rfl; rw [hu] at h; cases h
      simp [trialStep, h, alookup, hna, ih]
    | none =>
      by_cases hk : n = a
      · subst hk; simp [trialStep, h, alookup]
      · simp [trialStep, h, alookup, hk, ih]

theorem trialStep_model_some (step : ℚ) (u : Update) (n : String) (g : ℚ)
    (hu : alookup n u = some g) (tg : TempGrad) (m : Model) :
    alookup n (trialStep step u tg m).2
      = (alookup n m).map (fun p => p - signQ g * step) := by
  induction m generalizing tg with
  | nil => simp [trialStep, alookup]
  | cons hd tl ih =>
    obtain ⟨a, p⟩ := hd
    by_cases hk : n = a
    · subst hk
      simp [trialStep, hu, alookup]
    · cases h : alookup a u <;> simp [trialStep, h, alookup, hk, ih]

theorem trialStep_tg_of_u_none (step : ℚ) (u : Update) (n : String)
    (hu : alookup n u = none) (tg : TempGrad) (m : Model) :
    alookup n (trialStep step u tg m).1 = alookup n tg := by
  induction m generalizing tg with
  | nil => simp [trialStep]
  | cons hd tl ih =>
    obtain ⟨a, p⟩ := hd
    cases h : alookup a u with
    | none => simp [trialStep, h, ih]
    | some g =>
      have hna : n ≠ a := by rintro rfl; rw [hu] at h; cases h
      simp [trialStep, h, ih, alookup, hna]

theorem trialStep_tg_of_m_notmem (step : ℚ) (u : Update) (n : String)
    (tg : TempGrad) (m : Model) (hm : n ∉ m.map Prod.fst) :
    alookup n (trialStep step u tg m).1 = alookup n tg := by
  induction m generalizing tg with
  | nil => simp [trialStep]
  | cons hd tl ih =>
    obtain ⟨a, p⟩ := hd
    simp only [List.map_cons, List.mem_cons, not_or] at hm
    cases h : alookup a u with
    | none => simp [trialStep, h, ih _ hm.2]
    | some g => simp [trialStep, h, alookup, hm.1, ih _ hm.2]

theorem trialStep_tg_mem (step : ℚ) (u : Update) (n : String) (g : ℚ)
    (hu : alookup n u = some g) (tg : TempGrad) (m : Model)
    (hm : n ∈ m.map Prod.fst) :
    alookup n (trialStep step u tg m).1 = some g := by
  induction m generalizing tg with
  | nil => simp at hm
  | cons hd tl ih =>
    obtain ⟨a, p⟩ := hd
    by_cases hk : n = a
    · subst hk
      by_cases hm2 : n ∈ tl.map Prod.fst
      · simp [trialStep, hu, ih _ hm2]
      · simp [trialStep, hu, trialStep_tg_of_m_notmem step u n _ tl hm2, alookup]
    · simp only [List.map_cons, List.mem_cons] at hm
      have hm2 : n ∈ tl.map Prod.fst := hm.resolve_left hk
      cases h : alookup a u <;> simp [trialStep, h, ih _ hm2]

theorem revertStep_isSome (step : ℚ) (tg : TempGrad) (m : Model)
    (h : ∀ n ∈ m.map Prod.fst, (alookup n tg).isSome = true) :
    (revertStep step tg m).isSome = true := by
  induction m with
  | nil => simp [revertStep]
  | cons hd tl ih =>
    obtain ⟨a, p⟩ := hd
    have ha := h a (by simp)
    obtain ⟨g, hg⟩ := Option.isSome_iff_exists.mp ha
    have htl := ih (fun n hn => h n (by simp [hn]))
    obtain ⟨r, hr⟩ := Option.isSome_iff_exists.mp htl
    simp [revertStep, hg, hr]

theorem revertStep_val (step : ℚ) (tg : TempGrad) (m : Model) (n : String) (g : ℚ)
    (hg : alookup n tg = some g) :
    ∀ (m2 : Model) (p : ℚ), revertStep step tg m = some m2 → alookup n m = some p →
      alookup n m2 = some (p + signQ g * step) := by
  induction m with
  | nil => intro m2 p _ hm; simp [alookup] at hm
  | cons hd tl ih =>
    obtain ⟨a, q⟩ := hd
    intro m2 p h hm
    cases hga : alookup a tg with
    | none => simp [revertStep, hga] at h
    | some ga =>
      cases hr : revertStep step tg tl with
      | none => simp [revertStep, hga, hr] at h
      | some r =>
        simp only [revertStep, hga, hr, Option.map_some', Option.some.injEq] at h
        subst h
        by_cases hk : n = a
        · subst hk
          rw [hga] at hg
          obtain rfl : ga = g := by injection hg
          simp [alookup] at hm
          subst hm
          simp [alookup]
        · simp only [alookup, if_neg hk] at hm ⊢
          exact ih r p hr hm

theorem revertStep_none (step : ℚ) (tg : TempGrad) (m : Model) (n : String) (p : ℚ)
    (hm : alookup n m = some p) (hg : alookup n tg = none) :
    revertStep step tg m = none := by
  induction m with
  | nil => simp [alookup] at hm
  | cons hd tl ih =>
    obtain ⟨a, q⟩ := hd
    by_cases hk : n = a
    · subst hk; simp [revertStep, hg]
    · simp only [alookup, if_neg hk] at hm
      cases hga : alookup a tg with
      | none => simp [revertStep, hga]
      | some ga => simp [revertStep, hga, ih hm]

/-! ### Helper lemmas: evaluation loops, trust updates, scores, coordinator -/

theorem evalLoopFresh_skip_all (lossOn : Nat → Model → Nat → ℚ) (nb na : Nat → Nat)
    (step : ℚ) (fetch : Nat → Option Update) (mcopy : Model) (peers : List Nat)
    (m : Model) (tg : TempGrad) (h : ∀ uid ∈ peers, fetch uid = none) :
    evalLoopFresh lossOn nb na step fetch mcopy peers m tg = Except.ok ([], m, tg) := by
  induction peers with
  | nil => simp [evalLoopFresh]
  | cons uid rest ih =>
    have h1 : fetch uid = none := h uid (by simp)
    simp [evalLoopFresh, h1, ih (fun v hv => h v (by simp [hv]))]

theorem evalLoopCarry_skip_all (lossOn : Nat → Model → Nat → ℚ) (nb na : Nat → Nat)
    (step : ℚ) (fetch : Nat → Option Update) (mcopy : Model) (peers : List Nat)
    (m : Model) (tg : TempGrad) (h : ∀ uid ∈ peers, fetch uid = none) :
    evalLoopCarry lossOn nb na step fetch mcopy peers m tg = Except.ok ([], m, tg) := by
  induction peers with
  | nil => simp [evalLoopCarry]
  | cons uid rest ih =>
    have h1 : fetch uid = none := h uid (by simp)
    simp [evalLoopCarry, h1, ih (fun v hv => h v (by simp [hv]))]

theorem evalLoopFresh_mem_fetch (lossOn : Nat → Model → Nat → ℚ) (nb na : Nat → Nat)
    (step : ℚ) (fetch : Nat → Option Update) (mcopy : Model) (peers : List Nat) :
    ∀ (m : Model) (tg : TempGrad) (res : List (Nat × ℚ)) (m2 : Model) (tg2 : TempGrad)
      (uid : Nat) (q : ℚ),
      evalLoopFresh lossOn nb na step fetch mcopy peers m tg = Except.ok (res, m2, tg2) →
      (uid, q) ∈ res → (fetch uid).isSome = true := by
  induction peers with
  | nil =>
    intro m tg res m2 tg2 uid q h hmem
    simp only [evalLoopFresh, Except.ok.injEq, Prod.mk.injEq] at h
    obtain ⟨h1, -⟩ := h
    subst h1
    simp at hmem
  | cons v rest ih =>
    intro m tg res m2 tg2 uid q h hmem
    cases hf : fetch v with
    | none =>
      simp only [evalLoopFresh, hf] at h
      exact ih m tg res m2 tg2 uid q h hmem
    | some u =>
      simp only [evalLoopFresh, hf] at h
      split at h
      · cases h
      · rename_i o he
        split at h
        · cases h
        · rename_i res0 m0 tg0 hrec
          simp only [Except.ok.injEq, Prod.mk.injEq] at h
          obtain ⟨h1, -⟩ := h
          subst h1
          rcases List.mem_cons.mp hmem with hhd | htl
          · injection hhd with h1 h2
            subst h1
            simp [hf]
          · exact ih o.finalModel o.tempGrad res0 m0 tg0 uid q hrec htl

theorem evalLoopCarry_mem_fetch (lossOn : Nat → Model → Nat → ℚ) (nb na : Nat → Nat)
    (step : ℚ) (fetch : Nat → Option Update) (mcopy : Model) (peers : List Nat) :
    ∀ (m : Model) (tg : TempGrad) (res : List (Nat × ℚ)) (m2 : Model) (tg2 : TempGrad)
      (uid : Nat) (q : ℚ),
      evalLoopCarry lossOn nb na step fetch mcopy peers m tg = Except.ok (res, m2, tg2) →
      (uid, q) ∈ res → (fetch uid).isSome = true := by
  induction peers with
  | nil =>
    intro m tg res m2 tg2 uid q h hmem
    simp only [evalLoopCarry, Except.ok.injEq, Prod.mk.injEq] at h
    obtain ⟨h1, -⟩ := h
    subst h1
    simp at hmem
  | cons v rest ih =>
    intro m tg res m2 tg2 uid q h hmem
    cases hf : fetch v with
    | none =>
      simp only [evalLoopCarry, hf] at h
      exact ih m tg res m2 tg2 uid q h hmem
    | some u =>
      simp only [evalLoopCarry, hf] at h
      split at h
      · cases h
      · rename_i o he
        split at h
        · cases h
        · rename_i res0 m0 tg0 hrec
          simp only [Except.ok.injEq, Prod.mk.injEq] at h
          obtain ⟨h1, -⟩ := h
          subst h1
          rcases List.mem_cons.mp hmem with hhd | htl
          · injection hhd with h1 h2
            subst h1
            simp [hf]
          · exact ih o.finalModel o.tempGrad res0 m0 tg0 uid q hrec htl

theorem trustLoop_notmem (own other avg : List (Nat × ℚ)) (uid : Nat)
    (h : uid ∉ own.map Prod.fst) :
    alookup uid (trustLoop own other avg) = alookup uid avg := by
  induction own generalizing avg with
  | nil => simp [trustLoop]
  | cons hd tl ih =>
    obtain ⟨v, a⟩ := hd
    simp only [List.map_cons, List.mem_cons, not_or] at h
    cases hb : alookup v other with
    | none => simp [trustLoop, hb, ih _ h.2]
    | some b => simp [trustLoop, hb, ih _ h.2, alookup, h.1]

theorem trustLoop_lookup (own other : List (Nat × ℚ)) (uid : Nat) (a b : ℚ)
    (hnd : (own.map Prod.fst).Nodup) (ha : alookup uid own = some a)
    (hb : alookup uid other = some b) :
    ∀ avg : List (Nat × ℚ),
      alookup uid (trustLoop own other avg)
        = some (trustUpdateFn ((alookup uid avg).getD 0) (binarySignal a b)) := by
  induction own with
  | nil => simp [alookup] at ha
  | cons hd tl ih =>
    obtain ⟨v, c⟩ := hd
    intro avg
    simp only [List.map_cons, List.nodup_cons] at hnd
    by_cases hk : uid = v
    · subst hk
      simp [alookup] at ha
      subst ha
      simp [trustLoop, hb, trustLoop_notmem tl other _ uid hnd.1, alookup]
    · simp only [alookup, if_neg hk] at ha
      cases hvb : alookup v other with
      | none => simp [trustLoop, hvb, ih hnd.2 ha]
      | some b2 =>
        simp only [trustLoop, hvb]
        rw [ih hnd.2 ha]
        simp [alookup, hk]

theorem aggregateUpdate_gather_none (m : Model) :
    aggregateUpdate (fun _ => none) m = [] := by
  simp [aggregateUpdate]

theorem alphaT_eq : alphaT = 1 / 20 := by norm_num [alphaT]

theorem abs_trustUpdateFn_le (p x : ℚ) (hp : |p| ≤ 1) (hx : |x| ≤ 1) :
    |trustUpdateFn p x| ≤ 1 := by
  rw [abs_le] at hp hx ⊢
  unfold trustUpdateFn
  rw [alphaT_eq]
  constructor <;> nlinarith [hp.1, hp.2, hx.1, hx.2]

theorem foldl_trust_bounded (l : List ℚ) : ∀ init : ℚ, |init| ≤ 1 →
    (∀ x ∈ l, |x| ≤ 1) → |l.foldl trustUpdateFn init| ≤ 1 := by
  induction l with
  | nil => intro init h _; simpa using h
  | cons hd tl ih =>
    intro init h hall
    simp only [List.foldl_cons]
    exact ih _ (abs_trustUpdateFn_le _ _ h (hall hd (by simp)))
      (fun x hx => hall x (by simp [hx]))

theorem scoreN_succ (s : ℚ) (n : Nat) : scoreN s (n + 1) = trustUpdateFn (scoreN s n) s := by
  unfold scoreN scoreAfterSignals
  rw [List.replicate_succ', List.foldl_append]
  simp

theorem scoreN_closed (s : ℚ) (n : Nat) : scoreN s n = s * (1 - (19 / 20) ^ n) := by
  induction n with
  | zero => simp [scoreN, scoreAfterSignals]
  | succ k ih =>
    rw [scoreN_succ, ih]
    unfold trustUpdateFn
    rw [alphaT_eq, pow_succ]
    ring

theorem mainLoop_syncWindow (n : Nat) : ∀ s : CoordState,
    (mainLoop n s).syncWindow = s.syncWindow + n := by
  induction n with
  | zero => intro s; simp [mainLoop]
  | succ k ih =>
    intro s
    rw [mainLoop, ih (mainIter s)]
    simp only [mainIter]
    push_cast
    ring

/-! ### Claim theorems -/

/-- C1: the claim says `Evaluate` with an empty update (no parameter
entries) leaves every parameter bit-identical and returns `lossAfter =
lossBefore`.  On the code, the revert loop's `temp_grad[n]` indexing
(line 385) raises `KeyError` for the model parameter, which the empty
`temp_grad` does not contain, aborting the evaluation instead — the
`if temp_grad[n] is not None` guard shows the intent was to skip such
parameters.  This theorem evaluates the embedded code at the failing
input: a one-parameter model `w = 3`, the empty update, four available
batches of constant loss 1. -/
theorem c1_empty_update_keyerror :
    evalPeerGo (fun _ _ => 1) 4 4 1 [] [] [("w", 3)] [("w", 3)]
      = Except.error "KeyError" := by
  norm_num +decide [evalPeerGo, meanLoss, perBatch, sumLoss, trialStep, revertStep,
    alookup, List.range_succ]

/-- C2 counterexample: when the own-data and other-data loss improvements
are exactly equal, the code's binary signal (line 515) is -1, not the +1
the claim states. -/
theorem c2_equal_improvements_signal :
    binarySignal 50 50 = -1 ∧ ((-1 : ℚ) ≠ 1) := by
  constructor
  · norm_num [binarySignal]
  · norm_num

/-- C2 amended: the binary signal fed into the trust moving average is +1
exactly when the own-data improvement is strictly greater than the
other-data improvement, and -1 otherwise; in particular equal improvements
yield -1. -/
theorem c2_amended_signal :
    (∀ own other : ℚ, other < own → binarySignal own other = 1) ∧
    (∀ own other : ℚ, own ≤ other → binarySignal own other = -1) := by
  constructor
  · intro own other h
    unfold binarySignal
    exact if_pos h
  · intro own other h
    unfold binarySignal
    exact if_neg (not_lt.mpr h)

theorem c2_amended_signal_witness :
    (((50 : ℚ) < 60) ∧ binarySignal 60 50 = 1) ∧
    (((50 : ℚ) ≤ 50) ∧ binarySignal 50 50 = -1) :=
  ⟨⟨by norm_num, c2_amended_signal.1 60 50 (by norm_num)⟩,
   ⟨le_refl _, c2_amended_signal.2 50 50 (le_refl _)⟩⟩

/-- C3 counterexample: at `lossBefore = 0` the code's improvement
calculation (line 392) divides by zero and raises, rather than reporting
the claimed improvement 0. -/
theorem c3_zero_loss_before :
    improvementCalc 0 1 = none ∧ improvementCalc 0 1 ≠ some 0 := by
  constructor <;> simp [improvementCalc]

/-- C3 amended: the improvement is `100 * (1 - lossAfter/lossBefore)` for
every `lossBefore ≠ 0` (e.g. 2.0 and 1.0 give 50.0), but the division is
not guarded: `lossBefore = 0` raises `ZeroDivisionError` instead of
reporting 0. -/
theorem c3_amended_improvement :
    (∀ lb la : ℚ, lb ≠ 0 → improvementCalc lb la = some (100 * (1 - la / lb))) ∧
    improvementCalc 2 1 = some 50 ∧
    (∀ la : ℚ, improvementCalc 0 la = none) := by
  refine ⟨fun lb la h => ?_, ?_, fun la => ?_⟩
  · simp [improvementCalc, h]
  · norm_num [improvementCalc]
  · simp [improvementCalc]

theorem c3_amended_improvement_witness :
    ((2 : ℚ) ≠ 0) ∧ improvementCalc 2 1 = some (100 * (1 - 1 / 2)) :=
  ⟨by norm_num, c3_amended_improvement.1 2 1 (by norm_num)⟩

/-- C4: the windowed trust update (lines 512-522) stores exactly
`(1 - alpha) * prevScore + alpha * signal` with `alpha = 0.05` fixed, where
the previous score is read with default 0 for a peer without an entry, and
`Update(0, +1) = 0.05` exactly. -/
theorem c4_trust_update :
    (∀ (own other avg : List (Nat × ℚ)) (uid : Nat) (a b : ℚ),
        (own.map Prod.fst).Nodup → alookup uid own = some a →
        alookup uid other = some b →
        alookup uid (trustLoop own other avg)
          = some ((1 - alphaT) * ((alookup uid avg).getD 0)
                    + alphaT * binarySignal a b)) ∧
    trustUpdateFn 0 1 = 0.05 ∧ alphaT = 0.05 := by
  refine ⟨fun own other avg uid a b hnd ha hb => ?_, ?_, rfl⟩
  · rw [trustLoop_lookup own other uid a b hnd ha hb avg]
    rfl
  · norm_num [trustUpdateFn, alphaT]

theorem c4_trust_update_witness :
    (([((3 : Nat), (50 : ℚ))].map Prod.fst).Nodup) ∧
    alookup 3 (trustLoop [(3, 50)] [((3 : Nat), (40 : ℚ))] [])
      = some ((1 - alphaT) * ((alookup 3 ([] : List (Nat × ℚ))).getD 0)
                + alphaT * binarySignal 50 40) :=
  ⟨by simp, c4_trust_update.1 [(3, 50)] [(3, 40)] [] 3 50 40 (by simp)
    (by simp [alookup]) (by simp [alookup])⟩

/-- C9: the second evaluation loop carries `temp_grad` across peers (no
re-initialisation before line 465).  (A) When a later peer's update omits a
parameter `n` for which the carried dict holds an earlier nonzero gradient
`g`, and every model parameter is covered by the update or the carried
dict, the trial-then-revert completes but leaves `n` at
`p + sign(g) * step ≠ p`: the earlier peer's sign step is added back with
no matching subtraction, so the model is not restored.  (B) When `n`
appears in no update evaluated so far (absent from both the update and the
carried dict), the revert's `temp_grad[n]` lookup raises `KeyError`. -/
theorem c9_temp_grad_carryover :
    (∀ (step : ℚ) (u : Update) (tg0 : TempGrad) (m : Model) (n : String) (p g : ℚ),
        alookup n m = some p → alookup n u = none → alookup n tg0 = some g →
        g ≠ 0 → step ≠ 0 →
        (∀ nm ∈ m.map Prod.fst,
          (alookup nm u).isSome = true ∨ (alookup nm tg0).isSome = true) →
        ∃ m2, trialThenRevert step u tg0 m = some m2 ∧
          alookup n m2 = some (p + signQ g * step) ∧ p + signQ g * step ≠ p) ∧
    (∀ (step : ℚ) (u : Update) (tg0 : TempGrad) (m : Model) (n : String) (p : ℚ),
        alookup n m = some p → alookup n u = none → alookup n tg0 = none →
        trialThenRevert step u tg0 m = none) := by
  constructor
  · intro step u tg0 m n p g hm hu htg hg hstep hcov
    have hval : alookup n (trialStep step u tg0 m).2 = some p := by
      rw [trialStep_model_none step u n hu tg0 m, hm]
    have htgf : alookup n (trialStep step u tg0 m).1 = some g := by
      rw [trialStep_tg_of_u_none step u n hu tg0 m, htg]
    have hcov2 : ∀ nm ∈ (trialStep step u tg0 m).2.map Prod.fst,
        (alookup nm (trialStep step u tg0 m).1).isSome = true := by
      intro nm hnm
      rw [trialStep_names] at hnm
      rcases hcov nm hnm with hyes | hyes
      · obtain ⟨gu, hgu⟩ := Option.isSome_iff_exists.mp hyes
        rw [trialStep_tg_mem step u nm gu hgu tg0 m hnm]
        rfl
      · obtain ⟨gt, hgt⟩ := Option.isSome_iff_exists.mp hyes
        cases hx : alookup nm u with
        | some gu =>
          rw [trialStep_tg_mem step u nm gu hx tg0 m hnm]
          rfl
        | none =>
          rw [trialStep_tg_of_u_none step u nm hx tg0 m, hgt]
          rfl
    have hsome := revertStep_isSome step _ _ hcov2
    obtain ⟨m2, hm2⟩ := Option.isSome_iff_exists.mp hsome
    have hsg : signQ g ≠ 0 := by
      unfold signQ
      rcases lt_trichotomy g 0 with h | h | h
      · rw [if_neg (not_lt.mpr h.le), if_pos h]
        norm_num
      · exact absurd h hg
      · rw [if_pos h]
        norm_num
    refine ⟨m2, by simpa [trialThenRevert] using hm2, ?_, ?_⟩
    · exact revertStep_val step _ _ n g htgf m2 p hm2 hval
    · intro habs
      have hzero : signQ g * step = 0 := by linarith
      rcases mul_eq_zero.mp hzero with h | h
      · exact hsg h
      · exact hstep h
  · intro step u tg0 m n p hm hu htg
    have hval : alookup n (trialStep step u tg0 m).2 = some p := by
      rw [trialStep_model_none step u n hu tg0 m, hm]
    have htgf : alookup n (trialStep step u tg0 m).1 = none := by
      rw [trialStep_tg_of_u_none step u n hu tg0 m, htg]
    simpa [trialThenRevert] using revertStep_none step _ _ n p hval htgf

theorem c9_temp_grad_carryover_witness :
    (∃ m2, trialThenRevert 1 [("b", (3:ℚ))] [("a", (5:ℚ))] [("a", 1), ("b", 2)]
        = some m2 ∧
        alookup "a" m2 = some (1 + signQ 5 * 1) ∧ (1:ℚ) + signQ 5 * 1 ≠ 1) ∧
    trialThenRevert 1 [] [] [("a", (1:ℚ))] = none :=
  ⟨c9_temp_grad_carryover.1 1 [("b", 3)] [("a", 5)] [("a", 1), ("b", 2)] "a" 1 5
      (by simp [alookup]) (by simp [alookup]) (by simp [alookup])
      (by norm_num) (by norm_num)
      (by
        intro nm hnm
        simp only [List.map_cons, List.map_nil, List.mem_cons,
          List.not_mem_nil, or_false] at hnm
        rcases hnm with rfl | rfl
        · right
          simp [alookup]
        · left
          simp [alookup]),
   c9_temp_grad_carryover.2 1 [] [] [("a", 1)] "a" 1
      (by simp [alookup]) (by simp [alookup]) (by simp [alookup])⟩

/-- C10: when the after-trial loss loop contributes zero batches
(`na = 0`, an exhausted loader) and the evaluation completes, the per-batch
after-loss defaults to 0 (line 388) and, the before-trial mean loss being
strictly positive, the reported improvement is exactly
`100 * (1 - 0 / lossBefore) = 100` (line 392) — not 0 and not missing
data. -/
theorem c10_exhausted_after_loop (lossOn : Model → Nat → ℚ) (nb : Nat) (step : ℚ)
    (u : Update) (tg0 : TempGrad) (mcopy m : Model) (o : PeerOutcome)
    (h : evalPeerGo lossOn nb 0 step u tg0 mcopy m = Except.ok o)
    (hpos : 0 < o.lossBeforePerBatch) :
    o.lossAfterPerBatch = 0 ∧ o.improvement = 100 := by
  have hla : perBatch (sumLoss lossOn (trialStep step u tg0 m).2 (min 0 4)) (min 0 4)
      = 0 := by
    simp [perBatch]
  simp only [evalPeerGo] at h
  rw [hla] at h
  split at h
  · cases h
  · split at h
    · cases h
    · rename_i m2 hrev imp heq
      simp only [Except.ok.injEq] at h
      subst h
      simp only [improvementCalc] at heq
      split at heq
      · cases heq
      · rename_i hlb
        simp only [Option.some.injEq] at heq
        subst heq
        constructor
        · rfl
        · show (100 : ℚ) * (1 - 0 / meanLoss lossOn m nb) = 100
          rw [zero_div]
          ring

theorem c10_exhausted_after_loop_witness :
    ((0:ℚ) < (⟨1, 0, 100, [("w",1)], [("w",0)]⟩ : PeerOutcome).lossBeforePerBatch) ∧
    ((⟨1, 0, 100, [("w",1)], [("w",0)]⟩ : PeerOutcome).lossAfterPerBatch = 0 ∧
     (⟨1, 0, 100, [("w",1)], [("w",0)]⟩ : PeerOutcome).improvement = 100) :=
  ⟨by norm_num, c10_exhausted_after_loop (fun _ _ => 1) 4 1 [("w", 1)] [] [("w", 0)]
      [("w", 0)] ⟨1, 0, 100, [("w", 1)], [("w", 0)]⟩
      (by norm_num +decide [evalPeerGo, meanLoss, perBatch, sumLoss, trialStep,
        revertStep, improvementCalc, alookup, signQ, List.range_succ])
      (by norm_num)⟩

/-- C5: with binary signals drawn from {-1, +1} and the lazy default 0,
every intermediate trust score stays within [-1, 1] — the update (line 521)
is a convex combination and no clamping appears anywhere in lines 510-522 —
and under a constant signal `s ∈ {-1, +1}` the score moves strictly closer
to `s` at every window and converges to `s`. -/
theorem c5_trust_bounds_and_convergence :
    (∀ sig : List ℚ, (∀ x ∈ sig, x = -1 ∨ x = 1) →
        ∀ k : Nat, |scoreAfterSignals (sig.take k)| ≤ 1) ∧
    (∀ s : ℚ, (s = -1 ∨ s = 1) →
        (∀ n : Nat, |scoreN s (n + 1) - s| < |scoreN s n - s|) ∧
        (∀ ε : ℚ, 0 < ε → ∃ N : Nat, ∀ n : Nat, N ≤ n → |scoreN s n - s| < ε)) := by
  constructor
  · intro sig hall k
    apply foldl_trust_bounded
    · simp
    · intro x hx
      rcases hall x ((List.take_sublist k sig).subset hx) with rfl | rfl <;> norm_num
  · intro s hs
    have habs : ∀ n : Nat, |scoreN s n - s| = (19 / 20) ^ n := by
      intro n
      rw [scoreN_closed]
      have h1 : s * (1 - (19 / 20) ^ n) - s = -(s * (19 / 20) ^ n) := by ring
      rw [h1, abs_neg, abs_mul]
      have hs1 : |s| = 1 := by rcases hs with rfl | rfl <;> norm_num
      rw [hs1, one_mul, abs_of_nonneg (by positivity)]
    constructor
    · intro n
      rw [habs, habs]
      have hpow : (0:ℚ) < (19 / 20) ^ n := by positivity
      calc (19 / 20 : ℚ) ^ (n + 1) = (19 / 20) ^ n * (19 / 20) := by rw [pow_succ]
        _ < (19 / 20) ^ n * 1 := by nlinarith
        _ = (19 / 20) ^ n := by ring
    · intro ε hε
      obtain ⟨N, hN⟩ := exists_pow_lt_of_lt_one hε (show (19 / 20 : ℚ) < 1 by norm_num)
      refine ⟨N, fun n hn => ?_⟩
      rw [habs]
      calc (19 / 20 : ℚ) ^ n ≤ (19 / 20) ^ N :=
            pow_le_pow_of_le_one (by norm_num) (by norm_num) hn
        _ < ε := hN

theorem c5_trust_bounds_and_convergence_witness :
    (|scoreAfterSignals ([(1:ℚ), -1].take 2)| ≤ 1) ∧
    (|scoreN 1 1 - 1| < |scoreN 1 0 - 1|) ∧
    (∃ N : Nat, ∀ n : Nat, N ≤ n → |scoreN 1 n - 1| < 1 / 2) :=
  ⟨c5_trust_bounds_and_convergence.1 [1, -1] (by decide) 2,
   (c5_trust_bounds_and_convergence.2 1 (Or.inr rfl)).1 0,
   (c5_trust_bounds_and_convergence.2 1 (Or.inr rfl)).2 (1 / 2) (by norm_num)⟩

/-- C6 counterexample: the claim says `lossBefore` is computed on the
unmodified deep copy (`model_copy`, line 260/397), not on the live model.
On the code the forward pass at line 331 uses `self.model`: at a state
where the live model (`w = 2`) differs from the copy (`w = 3`) — which
happens within a window once an earlier trial has not been exactly
reverted — the evaluation reports `lossBefore = 2`, the live model's loss,
while the mean loss on the copy is 3. -/
theorem c6_loss_before_on_live_model :
    evalPeerGo (fun mm _ => (alookup "w" mm).getD 0) 4 4 1 [("w", 1)] []
        [("w", 3)] [("w", 2)]
      = Except.ok ⟨2, 1, 50, [("w", 1)], [("w", 2)]⟩ ∧
    meanLoss (fun mm _ => (alookup "w" mm).getD 0) [("w", 3)] 4 = 3 ∧
    ((2 : ℚ) ≠ 3) := by
  refine ⟨?_, ?_, by norm_num⟩
  · norm_num +decide [evalPeerGo, meanLoss, perBatch, sumLoss, trialStep, revertStep,
      improvementCalc, alookup, signQ, List.range_succ]
  · norm_num +decide [meanLoss, perBatch, sumLoss, alookup, List.range_succ]

/-- C6 amended: `lossBefore` is the mean loss over at most 4 evaluation
batches computed on the live model `self.model` — the very model the trial
subsequently mutates — and the whole evaluation is independent of the deep
copy, which is created but unused in the loss computation. -/
theorem c6_amended_loss_before :
    (∀ (lossOn : Model → Nat → ℚ) (nb na : Nat) (step : ℚ) (u : Update)
        (tg0 : TempGrad) (mcopy mcopy2 m : Model),
        evalPeerGo lossOn nb na step u tg0 mcopy m
          = evalPeerGo lossOn nb na step u tg0 mcopy2 m) ∧
    (∀ (lossOn : Model → Nat → ℚ) (nb na : Nat) (step : ℚ) (u : Update)
        (tg0 : TempGrad) (mcopy m : Model) (o : PeerOutcome),
        evalPeerGo lossOn nb na step u tg0 mcopy m = Except.ok o →
        o.lossBeforePerBatch = meanLoss lossOn m nb) := by
  constructor
  · intro lossOn nb na step u tg0 mcopy mcopy2 m
    rfl
  · intro lossOn nb na step u tg0 mcopy m o h
    simp only [evalPeerGo] at h
    split at h
    · cases h
    · split at h
      · cases h
      · simp only [Except.ok.injEq] at h
        subst h
        rfl

theorem c6_amended_loss_before_witness :
    evalPeerGo (fun mm _ => (alookup "w" mm).getD 0) 4 4 1 [("w", 1)] []
        [("w", 9)] [("w", 2)]
      = Except.ok ⟨2, 1, 50, [("w", 1)], [("w", 2)]⟩ ∧
    (⟨2, 1, 50, [("w", 1)], [("w", 2)]⟩ : PeerOutcome).lossBeforePerBatch
      = meanLoss (fun mm _ => (alookup "w" mm).getD 0) [("w", 2)] 4 := by
  have h : evalPeerGo (fun mm _ => (alookup "w" mm).getD 0) 4 4 1 [("w", 1)] []
      [("w", 9)] [("w", 2)]
      = Except.ok ⟨2, 1, 50, [("w", 1)], [("w", 2)]⟩ := by
    norm_num +decide [evalPeerGo, meanLoss, perBatch, sumLoss, trialStep, revertStep,
      improvementCalc, alookup, signQ, List.range_succ]
  exact ⟨h, c6_amended_loss_before.2 (fun mm _ => (alookup "w" mm).getD 0) 4 4 1
    [("w", 1)] [] [("w", 9)] [("w", 2)] ⟨2, 1, 50, [("w", 1)], [("w", 2)]⟩ h⟩

/-- C7 counterexample: an evaluation failure is not isolated — here a
single responsive peer whose evaluation divides by a zero per-batch
`loss_before` (line 392) raises through the loop, aborting the whole
window; no try/except surrounds the evaluation loops. -/
theorem c7_eval_failure_aborts_window :
    runWindow 1 [1] (fun _ => some [("w", 1)]) (fun _ _ _ => 0) (fun _ => 4)
        (fun _ => 4) (fun _ _ _ => 0) (fun _ => 4) (fun _ => 4) (fun _ => none)
        [("w", 0)] []
      = Except.error "ZeroDivisionError" := by
  norm_num +decide [runWindow, evalLoopFresh, evalLoopCarry, evalPeerGo, meanLoss,
    perBatch, sumLoss, trialStep, revertStep, improvementCalc, alookup, signQ,
    List.range_succ]

/-- C7 amended: a peer whose per-peer fetch returns nothing gets no
evaluation result in either improvement dict and is skipped; and when every
peer is unresponsive (and hence the gathered state is empty) the window
still completes, returning unchanged trust averages, an aggregate with zero
non-empty parameters, an empty evaluation-result set and an untouched
model.  (An exception raised inside an evaluation, by contrast, aborts the
window.) -/
theorem c7_amended_fetch_isolation :
    (∀ (step : ℚ) (peers : List Nat) (fetch : Nat → Option Update)
        (lossOwn : Nat → Model → Nat → ℚ) (nbOwn naOwn : Nat → Nat)
        (lossOther : Nat → Model → Nat → ℚ) (nbOther naOther : Nat → Nat)
        (gatherSd : String → Option ℚ) (m : Model) (avg : List (Nat × ℚ))
        (uid : Nat) (q : ℚ) (r : WindowResult),
        fetch uid = none →
        runWindow step peers fetch lossOwn nbOwn naOwn lossOther nbOther naOther
            gatherSd m avg = Except.ok r →
        (uid, q) ∉ r.improvementsOwn ∧ (uid, q) ∉ r.improvementsOther) ∧
    (∀ (step : ℚ) (peers : List Nat) (fetch : Nat → Option Update)
        (lossOwn : Nat → Model → Nat → ℚ) (nbOwn naOwn : Nat → Nat)
        (lossOther : Nat → Model → Nat → ℚ) (nbOther naOther : Nat → Nat)
        (m : Model) (avg : List (Nat × ℚ)),
        (∀ uid ∈ peers, fetch uid = none) →
        runWindow step peers fetch lossOwn nbOwn naOwn lossOther nbOther naOther
            (fun _ => none) m avg = Except.ok ⟨[], [], avg, [], m⟩) := by
  constructor
  · intro step peers fetch lossOwn nbOwn naOwn lossOther nbOther naOther gatherSd
      m avg uid q r hf h
    simp only [runWindow] at h
    split at h
    · cases h
    · rename_i own m1 tg1 h1
      split at h
      · cases h
      · rename_i other m2 tg2 h2
        simp only [Except.ok.injEq] at h
        subst h
        constructor
        · intro hmem
          have hs := evalLoopFresh_mem_fetch lossOwn nbOwn naOwn step fetch m peers
            m [] own m1 tg1 uid q h1 hmem
          rw [hf] at hs
          simp at hs
        · intro hmem
          have hs := evalLoopCarry_mem_fetch lossOther nbOther naOther step fetch m1
            peers m1 tg1 other m2 tg2 uid q h2 hmem
          rw [hf] at hs
          simp at hs
  · intro step peers fetch lossOwn nbOwn naOwn lossOther nbOther naOther m avg hall
    simp only [runWindow,
      evalLoopFresh_skip_all lossOwn nbOwn naOwn step fetch m peers m [] hall,
      evalLoopCarry_skip_all lossOther nbOther naOther step fetch m peers m [] hall]
    simp [trustLoop, aggregateUpdate_gather_none]

theorem c7_amended_fetch_isolation_witness :
    runWindow 1 [7] (fun _ => none) (fun _ _ _ => 1) (fun _ => 4) (fun _ => 4)
        (fun _ _ _ => 1) (fun _ => 4) (fun _ => 4) (fun _ => none) [("w", 1)] []
      = Except.ok ⟨[], [], [], [], [("w", 1)]⟩ ∧
    ((7, (5 : ℚ)) ∉ (⟨[], [], [], [], [("w", 1)]⟩ : WindowResult).improvementsOwn) := by
  have hrun : runWindow 1 [7] (fun _ => none) (fun _ _ _ => 1) (fun _ => 4)
      (fun _ => 4) (fun _ _ _ => 1) (fun _ => 4) (fun _ => 4) (fun _ => none)
      [("w", 1)] [] = Except.ok ⟨[], [], [], [], [("w", 1)]⟩ :=
    c7_amended_fetch_isolation.2 1 [7] (fun _ => none) (fun _ _ _ => 1) (fun _ => 4)
      (fun _ => 4) (fun _ _ _ => 1) (fun _ => 4) (fun _ => 4) [("w", 1)] []
      (fun _ _ => rfl)
  exact ⟨hrun, (c7_amended_fetch_isolation.1 1 [7] (fun _ => none) (fun _ _ _ => 1)
    (fun _ => 4) (fun _ => 4) (fun _ _ _ => 1) (fun _ => 4) (fun _ => 4)
    (fun _ => none) [("w", 1)] [] 7 5 ⟨[], [], [], [], [("w", 1)]⟩ rfl hrun).1⟩

/-- C8 counterexample: peer work is not gated on any window condition.  One
main-loop iteration from the state `current_window = 5`, `sync_window = 3`
performs the peer work for window 3 even though the two counters differ —
the body of the main loop (lines 244-598) never reads `current_window`, so
the coordinator does not block on `current == sync` before each window's
peer work (the only wait, lines 239-242, runs once before the loop and
exits when the counters differ). -/
theorem c8_work_without_blocking :
    (mainIter ⟨5, 3, []⟩).workedWindows = [3] ∧
    (mainIter ⟨5, 3, []⟩).workedWindows ≠ ([] : List Int) ∧ ((5 : Int) ≠ 3) := by
  refine ⟨rfl, by simp [mainIter], by norm_num⟩

/-- C8 amended: the coordinator-owned `sync_window` counter is monotonic
and increases by exactly 1 per main-loop iteration; every iteration
unconditionally performs the peer work for the current `sync_window`; and
the one wait loop before the main loop (lines 239-242) breaks exactly when
`current_window ≠ sync_window` — it runs once for the whole process, not
before each window. -/
theorem c8_amended_sync_counter :
    (∀ (n : Nat) (s : CoordState), (mainLoop n s).syncWindow = s.syncWindow + n) ∧
    (∀ s : CoordState, (mainIter s).workedWindows = s.workedWindows ++ [s.syncWindow]) ∧
    (∀ c sy : Int, exhaustedBreak c sy = true ↔ c ≠ sy) ∧
    (∀ (a b : Nat) (s : CoordState), a ≤ b →
        (mainLoop a s).syncWindow ≤ (mainLoop b s).syncWindow) := by
  refine ⟨fun n s => mainLoop_syncWindow n s, fun s => rfl, ?_, ?_⟩
  · intro c sy
    simp [exhaustedBreak]
  · intro a b s hab
    rw [mainLoop_syncWindow a s, mainLoop_syncWindow b s]
    have hq : (a : ℤ) ≤ b := by exact_mod_cast hab
    linarith

theorem c8_amended_sync_counter_witness :
    ((1 : Nat) ≤ 2) ∧
    (mainLoop 1 ⟨0, 0, []⟩).syncWindow ≤ (mainLoop 2 ⟨0, 0, []⟩).syncWindow :=
  ⟨by norm_num, c8_amended_sync_counter.2.2.2 1 2 ⟨0, 0, []⟩ (by norm_num)⟩
